import Mathlib

/-!
# Shallow embedding of the `ds-cache` keyspace store

This file embeds the data model and the operations of `src/storage/mod.rs`,
`src/storage/entry.rs` and `src/storage/value.rs` of the `ds-cache` repository
and proves/refutes the specification claims about them.

Modelling conventions:
* `Vec<u8>` byte strings always originate from UTF-8 `String`s in the store API
  (`into_bytes` on the way in, `from_utf8_lossy` on the way out); both
  conversions compose to the identity on valid UTF-8, so byte strings are
  modelled as Lean `String`.
* `f64` scores are modelled as `ℚ`: the store only compares scores (never does
  arithmetic on them), and comparison of non-NaN `f64` values agrees with the
  rational order on the represented values.  (`OrderedFloat`'s `Ord` instance
  is the usual order away from NaN.)
* `Instant` is modelled as a `Nat` tick; `Instant::now()` becomes an explicit
  `now` parameter threaded into every operation.
* `HashMap<String, Entry>` (the keyspace) is modelled as a function
  `String → Option Entry`; `HashSet`/`HashMap` inside values are modelled as
  duplicate-free lists / association lists whose insert semantics mirror the
  Rust containers (replace-in-place on existing key, append otherwise): no
  claim observes their iteration order.
* `BTreeMap<OrderedFloat, Vec<u8>>` is modelled as a list of (score, member)
  pairs kept sorted by score with unique score keys, with the BTreeMap
  insert-replaces-on-equal-key semantics.
* Machine integers: `i64` range arguments are modelled as `ℤ` with explicit
  two's-complement wrapping (`wrap64`) at every addition and an explicit
  wrapping cast to `usize` (`castUsize`), i.e. Rust release-mode semantics
  (debug builds would abort at the same overflow points).  Rust's slice
  indexing panic is modelled as `Except.error`.
-/

namespace DsCache

/-- Byte strings (`Vec<u8>`) of the store API, see the conventions above. -/
abbrev Bytes := String

/-- Model of `f64` scores, see the conventions above. -/
abbrev Score := ℚ

-- ========== Value model (src/storage/mod.rs lines 12-108) ==========

inductive StringEncoding
  | Raw
  | Int
  | Embstr
deriving DecidableEq, Repr

structure StringValue where
  data : Bytes
  encoding : StringEncoding
deriving DecidableEq, Repr

inductive ListEncoding
  | Ziplist
  | LinkedList
  | Quicklist
deriving DecidableEq, Repr

structure ListValue where
  elements : List Bytes
  encoding : ListEncoding
deriving DecidableEq, Repr

inductive SetEncoding
  | HashTable
  | IntSet
deriving DecidableEq, Repr

/-- Model of `HashSet<Vec<u8>>` modelled as a duplicate-free list. -/
structure SetValue where
  members : List Bytes
  encoding : SetEncoding
deriving DecidableEq, Repr

inductive SortedSetEncoding
  | Ziplist
  | SkipList
deriving DecidableEq, Repr

/-- Model of `SortedSetValue`: `members` models the `BTreeMap<OrderedFloat, Vec<u8>>`
(score-sorted, unique score keys), `member_scores` the reverse
`HashMap<Vec<u8>, OrderedFloat>` as an association list. -/
structure SortedSetValue where
  members : List (Score × Bytes)
  member_scores : List (Bytes × Score)
  encoding : SortedSetEncoding
deriving DecidableEq, Repr

inductive HashEncoding
  | Ziplist
  | HashTable
deriving DecidableEq, Repr

/-- Model of `HashValue`: the field `HashMap<Vec<u8>, Vec<u8>>` as an association list. -/
structure HashValue where
  fields : List (Bytes × Bytes)
  encoding : HashEncoding
deriving DecidableEq, Repr

inductive Value
  | String : StringValue → Value
  | List : ListValue → Value
  | Set : SetValue → Value
  | SortedSet : SortedSetValue → Value
  | Hash : HashValue → Value
  | Nil : Value
deriving DecidableEq, Repr

-- ========== Entry (src/storage/entry.rs) ==========

structure Entry where
  value : Value
  expires_at : Option Nat
  created_at : Nat
  last_accessed : Option Nat
deriving DecidableEq, Repr

namespace Entry

/-- Model of `Entry::new`. -/
def new (now : Nat) (value : Value) : Entry :=
  { value := value, expires_at := none, created_at := now, last_accessed := none }

/-- Model of `Entry::with_expiration`. -/
def with_expiration (now : Nat) (value : Value) (ttl : Nat) : Entry :=
  { value := value, expires_at := some (now + ttl), created_at := now,
    last_accessed := none }

/-- Model of `Entry::is_expired`: `Instant::now() > expires_at`. -/
def is_expired (e : Entry) (now : Nat) : Bool :=
  match e.expires_at with
  | some t => decide (now > t)
  | none => false

/-- Model of `Entry::update_access_time`. -/
def update_access_time (e : Entry) (now : Nat) : Entry :=
  { e with last_accessed := some now }

/-- Model of `Entry::set_expiration`. -/
def set_expiration (e : Entry) (now ttl : Nat) : Entry :=
  { e with expires_at := some (now + ttl) }

/-- Model of `Entry::remove_expiration`. -/
def remove_expiration (e : Entry) : Entry :=
  { e with expires_at := none }

/-- Model of `Entry::ttl` (durations as `Nat` ticks). -/
def ttl (e : Entry) (now : Nat) : Option Nat :=
  match e.expires_at with
  | some t => if t > now then some (t - now) else some 0
  | none => none

end Entry

-- ========== Container helpers ==========

/-- Model of `HashSet::insert` on the duplicate-free-list model (no-op when present). -/
def hsInsert (l : List Bytes) (m : Bytes) : List Bytes :=
  if m ∈ l then l else l ++ [m]

/-- Model of `HashSet::remove` on the duplicate-free-list model. -/
def hsRemove (l : List Bytes) (m : Bytes) : List Bytes :=
  l.filter (fun x => x ≠ m)

/-- Model of `HashMap::get` on the association-list model. -/
def hmLookup {β : Type} (l : List (Bytes × β)) (k : Bytes) : Option β :=
  match l with
  | [] => none
  | (k', v) :: rest => if k' = k then some v else hmLookup rest k

/-- Model of `HashMap::contains_key` on the association-list model. -/
def hmContains {β : Type} (l : List (Bytes × β)) (k : Bytes) : Bool :=
  (hmLookup l k).isSome

/-- Model of `HashMap::insert` on the association-list model: replace in place when the
key is present (reachable lists have unique keys), append otherwise. -/
def hmInsert {β : Type} (l : List (Bytes × β)) (k : Bytes) (v : β) :
    List (Bytes × β) :=
  if hmContains l k then l.map (fun p => if p.1 = k then (k, v) else p)
  else l ++ [(k, v)]

/-- Model of `HashMap::remove` (drop the key) on the association-list model. -/
def hmRemove {β : Type} (l : List (Bytes × β)) (k : Bytes) :
    List (Bytes × β) :=
  l.filter (fun p => p.1 ≠ k)

/-- Model of `BTreeMap::insert` on the sorted-list model: keeps the list sorted by
score, replacing the value on an equal key (this is how two distinct members
with equal scores collide in `SortedSetValue.members`). -/
def btInsert (k : Score) (v : Bytes) : List (Score × Bytes) → List (Score × Bytes)
  | [] => [(k, v)]
  | (k', v') :: rest =>
    if k < k' then (k, v) :: (k', v') :: rest
    else if k = k' then (k, v) :: rest
    else (k', v') :: btInsert k v rest

/-- Model of `BTreeMap::remove` on the sorted-list model. -/
def btRemove (k : Score) : List (Score × Bytes) → List (Score × Bytes)
  | [] => []
  | (k', v') :: rest => if k = k' then rest else (k', v') :: btRemove k rest

-- ========== Fresh composite values ==========

/-- The fresh list every list-creating branch of `lpush`/`rpush` builds. -/
def freshList : ListValue :=
  { elements := [], encoding := ListEncoding.Quicklist }

/-- The fresh set every set-creating branch of `sadd` builds. -/
def freshSet : SetValue :=
  { members := [], encoding := SetEncoding.HashTable }

/-- Model of `SortedSetValue::new`. -/
def freshZSet : SortedSetValue :=
  { members := [], member_scores := [], encoding := SortedSetEncoding.SkipList }

/-- Model of `HashValue` fresh value built by the hash-creating branches of `hset`. -/
def freshHash : HashValue :=
  { fields := [], encoding := HashEncoding.HashTable }

-- ========== CacheStore (src/storage/mod.rs) ==========

/-- Model of `CacheStore`: the `HashMap<String, Entry>` keyspace as a function map. -/
def CacheStore : Type := String → Option Entry

/-- Model of `CacheStore::new` (capacity is irrelevant to behavior). -/
def CacheStore.empty : CacheStore := fun _ => none

/-- Model of `HashMap::insert` on the keyspace. -/
def CacheStore.insert (k : String) (e : Entry) (s : CacheStore) : CacheStore :=
  fun k' => if k' = k then some e else s k'

/-- Model of `HashMap::remove` on the keyspace. -/
def CacheStore.remove (k : String) (s : CacheStore) : CacheStore :=
  fun k' => if k' = k then none else s k'

/-- Model of `CacheStore::get` (updates the access time on a hit, evicts when expired). -/
def CacheStore.get (now : Nat) (k : String) (s : CacheStore) :
    Option Value × CacheStore :=
  match s k with
  | some e =>
    if e.is_expired now then (none, CacheStore.remove k s)
    else (some e.value, CacheStore.insert k (e.update_access_time now) s)
  | none => (none, s)

/-- Model of `CacheStore::set`. -/
def CacheStore.set (now : Nat) (k : String) (v : Value) (s : CacheStore) :
    CacheStore :=
  CacheStore.insert k (Entry.new now v) s

/-- Model of `CacheStore::set_with_expiration`. -/
def CacheStore.set_with_expiration (now : Nat) (k : String) (v : Value)
    (ttl : Nat) (s : CacheStore) : CacheStore :=
  CacheStore.insert k (Entry.with_expiration now v ttl) s

/-- Model of `CacheStore::delete`. -/
def CacheStore.delete (k : String) (s : CacheStore) : Bool × CacheStore :=
  ((s k).isSome, CacheStore.remove k s)

/-- Model of `CacheStore::exists` (evicts an expired entry as a side effect). -/
def CacheStore.exists (now : Nat) (k : String) (s : CacheStore) :
    Bool × CacheStore :=
  match s k with
  | some e =>
    if e.is_expired now then (false, CacheStore.remove k s) else (true, s)
  | none => (false, s)

/-- Model of `CacheStore::expire`. -/
def CacheStore.expire (now : Nat) (k : String) (ttl : Nat) (s : CacheStore) :
    Bool × CacheStore :=
  match s k with
  | some e =>
    if e.is_expired now then (false, CacheStore.remove k s)
    else (true, CacheStore.insert k (e.set_expiration now ttl) s)
  | none => (false, s)

/-- Model of `CacheStore::persist`. -/
def CacheStore.persist (now : Nat) (k : String) (s : CacheStore) :
    Bool × CacheStore :=
  match s k with
  | some e =>
    if e.is_expired now then (false, CacheStore.remove k s)
    else (true, CacheStore.insert k e.remove_expiration s)
  | none => (false, s)

/-- Model of `CacheStore::ttl`. -/
def CacheStore.ttl (now : Nat) (k : String) (s : CacheStore) :
    Option Nat × CacheStore :=
  match s k with
  | some e =>
    if e.is_expired now then (none, CacheStore.remove k s)
    else (e.ttl now, s)
  | none => (none, s)

/-- Model of `CacheStore::key_type` (goes through `get`). -/
def CacheStore.key_type (now : Nat) (k : String) (s : CacheStore) :
    Option String × CacheStore :=
  let (v, s') := CacheStore.get now k s
  (v.map (fun value =>
    match value with
    | Value.String _ => "string"
    | Value.List _ => "list"
    | Value.Set _ => "set"
    | Value.SortedSet _ => "zset"
    | Value.Hash _ => "hash"
    | Value.Nil => "nil"), s')

-- ========== List operations ==========

/-- The prepend loop of `lpush`:
`for value in values.into_iter().rev() { elements.insert(0, value) }`. -/
def lpushPrepend (values elements : List Bytes) : List Bytes :=
  values.reverse.foldl (fun acc v => v :: acc) elements

/-- Model of `CacheStore::lpush`.  Note that an unexpired entry of a different variant
is silently overwritten with a fresh list (the entry keeps its expiration),
an expired entry is removed and replaced by a fresh unexpiring entry, and an
absent key gets a fresh entry. -/
def CacheStore.lpush (now : Nat) (k : String) (values : List Bytes)
    (s : CacheStore) : Nat × CacheStore :=
  let base : ListValue × Entry × CacheStore :=
    match s k with
    | some e =>
      if e.is_expired now then
        (freshList, Entry.new now (Value.List freshList), CacheStore.remove k s)
      else
        match e.value with
        | Value.List l => (l, e, s)
        | _ => (freshList, { e with value := Value.List freshList }, s)
    | none => (freshList, Entry.new now (Value.List freshList), s)
  let elems := lpushPrepend values base.1.elements
  (elems.length,
   CacheStore.insert k
     { base.2.1 with value := Value.List { base.1 with elements := elems } }
     base.2.2)

/-- Model of `CacheStore::rpush` (append loop: `elements.push(value)` in order). -/
def CacheStore.rpush (now : Nat) (k : String) (values : List Bytes)
    (s : CacheStore) : Nat × CacheStore :=
  let base : ListValue × Entry × CacheStore :=
    match s k with
    | some e =>
      if e.is_expired now then
        (freshList, Entry.new now (Value.List freshList), CacheStore.remove k s)
      else
        match e.value with
        | Value.List l => (l, e, s)
        | _ => (freshList, { e with value := Value.List freshList }, s)
    | none => (freshList, Entry.new now (Value.List freshList), s)
  let elems := base.1.elements ++ values
  (elems.length,
   CacheStore.insert k
     { base.2.1 with value := Value.List { base.1 with elements := elems } }
     base.2.2)

/-- The `lpop` loop: up to `count` iterations of `ListValue::pop_left`
(`elements.remove(0)`), breaking when the list is empty.  Returns the popped
elements in pop order and the remaining list. -/
def lpopLoop : Nat → List Bytes → List Bytes × List Bytes
  | 0, l => ([], l)
  | _ + 1, [] => ([], [])
  | n + 1, x :: xs =>
    let r := lpopLoop n xs
    (x :: r.1, r.2)

/-- Model of `ListValue::pop_right` (`Vec::pop`): removes and returns the last element. -/
def popRight : List Bytes → Option (Bytes × List Bytes)
  | [] => none
  | [x] => some (x, [])
  | x :: y :: xs =>
    match popRight (y :: xs) with
    | some (z, rest) => some (z, x :: rest)
    | none => none

/-- The `rpop` loop: up to `count` iterations of `ListValue::pop_right`,
breaking when the list is empty. -/
def rpopLoop : Nat → List Bytes → List Bytes × List Bytes
  | 0, l => ([], l)
  | n + 1, l =>
    match popRight l with
    | some (x, rest) =>
      let r := rpopLoop n rest
      (x :: r.1, r.2)
    | none => ([], l)

/-- Model of `CacheStore::lpop`: returns `None` when nothing was popped (absent,
expired, wrong type, empty list, or zero count). -/
def CacheStore.lpop (now : Nat) (k : String) (count : Nat) (s : CacheStore) :
    Option (List Bytes) × CacheStore :=
  match s k with
  | some e =>
    if e.is_expired now then (none, CacheStore.remove k s)
    else
      match e.value with
      | Value.List l =>
        let r := lpopLoop count l.elements
        let s' := CacheStore.insert k
          { e with value := Value.List { l with elements := r.2 } } s
        if r.1.isEmpty then (none, s') else (some r.1, s')
      | _ => (none, s)
  | none => (none, s)

/-- Model of `CacheStore::rpop`: as `lpop` but popping from the right. -/
def CacheStore.rpop (now : Nat) (k : String) (count : Nat) (s : CacheStore) :
    Option (List Bytes) × CacheStore :=
  match s k with
  | some e =>
    if e.is_expired now then (none, CacheStore.remove k s)
    else
      match e.value with
      | Value.List l =>
        let r := rpopLoop count l.elements
        let s' := CacheStore.insert k
          { e with value := Value.List { l with elements := r.2 } } s
        if r.1.isEmpty then (none, s') else (some r.1, s')
      | _ => (none, s)
  | none => (none, s)

/-- Model of `CacheStore::llen`. -/
def CacheStore.llen (now : Nat) (k : String) (s : CacheStore) :
    Option Nat × CacheStore :=
  match s k with
  | some e =>
    if e.is_expired now then (none, CacheStore.remove k s)
    else
      match e.value with
      | Value.List l => (some l.elements.length, s)
      | _ => (none, s)
  | none => (none, s)

-- ========== i64 index arithmetic (release-mode wrapping) ==========

/-- Two's-complement wrapping of an integer into the `i64` range. -/
def wrap64 (z : ℤ) : ℤ := (z + 2 ^ 63) % 2 ^ 64 - 2 ^ 63

/-- Rust's `as usize` cast on an `i64` value: a bitcast, i.e. reduction
modulo `2^64`. -/
def castUsize (z : ℤ) : ℕ := (z % 2 ^ 64).toNat

/-- The shared index computation of `lrange` and `zrange`
(`len + start`, `stop + 1`, `max`/`min` clamping, `as usize` casts), with every
`i64` addition wrapped as in a release build. -/
def rangeIdx (length : ℕ) (start stop : ℤ) : ℕ × ℕ :=
  let len : ℤ := wrap64 length
  let start_idx : ℕ :=
    castUsize (if start < 0 then max (wrap64 (len + start)) 0 else min start len)
  let stop_idx : ℕ :=
    castUsize (if stop < 0 then max (wrap64 (wrap64 (len + stop) + 1)) 0
               else min (wrap64 (stop + 1)) len)
  (start_idx, stop_idx)

/-- Model of `CacheStore::lrange`.  `Except.error ()` models the Rust abort when the
slice bound `stop_idx` exceeds the element count (reachable: `stop = i64::MAX`
makes `stop + 1` wrap to `i64::MIN` and the `as usize` cast turn it into
`2^63`). -/
def CacheStore.lrange (now : Nat) (k : String) (start stop : ℤ)
    (s : CacheStore) : Except Unit (Option (List Bytes)) × CacheStore :=
  match s k with
  | some e =>
    if e.is_expired now then (Except.ok none, CacheStore.remove k s)
    else
      match e.value with
      | Value.List l =>
        let idx := rangeIdx l.elements.length start stop
        if idx.1 ≥ idx.2 ∨ idx.1 ≥ l.elements.length then
          (Except.ok (some []), s)
        else if idx.2 ≤ l.elements.length then
          (Except.ok (some ((l.elements.drop idx.1).take (idx.2 - idx.1))), s)
        else (Except.error (), s)
      | _ => (Except.ok none, s)
  | none => (Except.ok none, s)

-- ========== Set operations ==========

/-- Model of `CacheStore::sadd`: same create-if-absent / overwrite-on-wrong-type /
evict-expired skeleton as `lpush`, then `HashSet::insert` per member; returns
the growth of the member count. -/
def CacheStore.sadd (now : Nat) (k : String) (members : List Bytes)
    (s : CacheStore) : Nat × CacheStore :=
  let base : SetValue × Entry × CacheStore :=
    match s k with
    | some e =>
      if e.is_expired now then
        (freshSet, Entry.new now (Value.Set freshSet), CacheStore.remove k s)
      else
        match e.value with
        | Value.Set st => (st, e, s)
        | _ => (freshSet, { e with value := Value.Set freshSet }, s)
    | none => (freshSet, Entry.new now (Value.Set freshSet), s)
  let newMembers := members.foldl hsInsert base.1.members
  (newMembers.length - base.1.members.length,
   CacheStore.insert k
     { base.2.1 with value := Value.Set { base.1 with members := newMembers } }
     base.2.2)

/-- Model of `CacheStore::srem`. -/
def CacheStore.srem (now : Nat) (k : String) (members : List Bytes)
    (s : CacheStore) : Nat × CacheStore :=
  match s k with
  | some e =>
    if e.is_expired now then (0, CacheStore.remove k s)
    else
      match e.value with
      | Value.Set st =>
        let newMembers := members.foldl hsRemove st.members
        (st.members.length - newMembers.length,
         CacheStore.insert k
           { e with value := Value.Set { st with members := newMembers } } s)
      | _ => (0, s)
  | none => (0, s)

/-- Model of `CacheStore::smembers`. -/
def CacheStore.smembers (now : Nat) (k : String) (s : CacheStore) :
    Option (List Bytes) × CacheStore :=
  match s k with
  | some e =>
    if e.is_expired now then (none, CacheStore.remove k s)
    else
      match e.value with
      | Value.Set st => (some st.members, s)
      | _ => (none, s)
  | none => (none, s)

/-- Model of `CacheStore::scard`. -/
def CacheStore.scard (now : Nat) (k : String) (s : CacheStore) :
    Option Nat × CacheStore :=
  match s k with
  | some e =>
    if e.is_expired now then (none, CacheStore.remove k s)
    else
      match e.value with
      | Value.Set st => (some st.members.length, s)
      | _ => (none, s)
  | none => (none, s)

/-- Model of `CacheStore::s_ismember`. -/
def CacheStore.s_ismember (now : Nat) (k : String) (member : Bytes)
    (s : CacheStore) : Option Bool × CacheStore :=
  match s k with
  | some e =>
    if e.is_expired now then (none, CacheStore.remove k s)
    else
      match e.value with
      | Value.Set st => (some (st.members.contains member), s)
      | _ => (none, s)
  | none => (none, s)

-- ========== Hash operations ==========

/-- The `hset` field loop: counts a field only when it is not yet present,
then inserts (replacing any existing value). -/
def hsetLoop (fields : List (Bytes × Bytes)) (pairs : List (Bytes × Bytes))
    (sz : Nat) : List (Bytes × Bytes) × Nat :=
  match pairs with
  | [] => (fields, sz)
  | (f, v) :: rest =>
    hsetLoop (hmInsert fields f v) rest
      (if hmContains fields f then sz else sz + 1)

/-- Model of `CacheStore::hset`: create-if-absent skeleton, then the field loop;
returns the count of newly created fields. -/
def CacheStore.hset (now : Nat) (k : String) (pairs : List (Bytes × Bytes))
    (s : CacheStore) : Nat × CacheStore :=
  let base : HashValue × Entry × CacheStore :=
    match s k with
    | some e =>
      if e.is_expired now then
        (freshHash, Entry.new now (Value.Hash freshHash), CacheStore.remove k s)
      else
        match e.value with
        | Value.Hash h => (h, e, s)
        | _ => (freshHash, { e with value := Value.Hash freshHash }, s)
    | none => (freshHash, Entry.new now (Value.Hash freshHash), s)
  let r := hsetLoop base.1.fields pairs 0
  (r.2,
   CacheStore.insert k
     { base.2.1 with value := Value.Hash { base.1 with fields := r.1 } }
     base.2.2)

/-- Model of `CacheStore::hget`. -/
def CacheStore.hget (now : Nat) (k : String) (field : Bytes) (s : CacheStore) :
    Option Bytes × CacheStore :=
  match s k with
  | some e =>
    if e.is_expired now then (none, CacheStore.remove k s)
    else
      match e.value with
      | Value.Hash h => (hmLookup h.fields field, s)
      | _ => (none, s)
  | none => (none, s)

/-- Model of `CacheStore::hdel`. -/
def CacheStore.hdel (now : Nat) (k : String) (fields : List Bytes)
    (s : CacheStore) : Nat × CacheStore :=
  match s k with
  | some e =>
    if e.is_expired now then (0, CacheStore.remove k s)
    else
      match e.value with
      | Value.Hash h =>
        let newFields := fields.foldl hmRemove h.fields
        (h.fields.length - newFields.length,
         CacheStore.insert k
           { e with value := Value.Hash { h with fields := newFields } } s)
      | _ => (0, s)
  | none => (0, s)

/-- Model of `CacheStore::hmset` (delegates to `hset`). -/
def CacheStore.hmset (now : Nat) (k : String) (pairs : List (Bytes × Bytes))
    (s : CacheStore) : Nat × CacheStore :=
  CacheStore.hset now k pairs s

/-- Model of `CacheStore::hmget`. -/
def CacheStore.hmget (now : Nat) (k : String) (fields : List Bytes)
    (s : CacheStore) : Option (List (Option Bytes)) × CacheStore :=
  match s k with
  | some e =>
    if e.is_expired now then (none, CacheStore.remove k s)
    else
      match e.value with
      | Value.Hash h => (some (fields.map (fun f => hmLookup h.fields f)), s)
      | _ => (none, s)
  | none => (none, s)

/-- Model of `CacheStore::hexists`. -/
def CacheStore.hexists (now : Nat) (k : String) (field : Bytes)
    (s : CacheStore) : Bool × CacheStore :=
  match s k with
  | some e =>
    if e.is_expired now then (false, CacheStore.remove k s)
    else
      match e.value with
      | Value.Hash h => (hmContains h.fields field, s)
      | _ => (false, s)
  | none => (false, s)

/-- Model of `CacheStore::hlen`. -/
def CacheStore.hlen (now : Nat) (k : String) (s : CacheStore) :
    Nat × CacheStore :=
  match s k with
  | some e =>
    if e.is_expired now then (0, CacheStore.remove k s)
    else
      match e.value with
      | Value.Hash h => (h.fields.length, s)
      | _ => (0, s)
  | none => (0, s)

/-- Model of `CacheStore::hkeys`. -/
def CacheStore.hkeys (now : Nat) (k : String) (s : CacheStore) :
    Option (List Bytes) × CacheStore :=
  match s k with
  | some e =>
    if e.is_expired now then (none, CacheStore.remove k s)
    else
      match e.value with
      | Value.Hash h => (some (h.fields.map Prod.fst), s)
      | _ => (none, s)
  | none => (none, s)

/-- Model of `CacheStore::hvals`. -/
def CacheStore.hvals (now : Nat) (k : String) (s : CacheStore) :
    Option (List Bytes) × CacheStore :=
  match s k with
  | some e =>
    if e.is_expired now then (none, CacheStore.remove k s)
    else
      match e.value with
      | Value.Hash h => (some (h.fields.map Prod.snd), s)
      | _ => (none, s)
  | none => (none, s)

/-- Model of `CacheStore::hgetall` (a clone of the field map). -/
def CacheStore.hgetall (now : Nat) (k : String) (s : CacheStore) :
    Option (List (Bytes × Bytes)) × CacheStore :=
  match s k with
  | some e =>
    if e.is_expired now then (none, CacheStore.remove k s)
    else
      match e.value with
      | Value.Hash h => (some h.fields, s)
      | _ => (none, s)
  | none => (none, s)

-- ========== Sorted-set operations ==========

/-- The `zadd` member loop: a member already present in `member_scores` is
skipped entirely (its score is NOT updated); a new member is inserted into
both indexes and counted. -/
def zaddLoop (z : SortedSetValue) (members : List (Score × Bytes))
    (added : Nat) : SortedSetValue × Nat :=
  match members with
  | [] => (z, added)
  | (score, member) :: rest =>
    if hmContains z.member_scores member then zaddLoop z rest added
    else
      zaddLoop
        { members := btInsert score member z.members,
          member_scores := hmInsert z.member_scores member score,
          encoding := z.encoding }
        rest (added + 1)

/-- Model of `CacheStore::zadd`: create-if-absent skeleton, then the member loop. -/
def CacheStore.zadd (now : Nat) (k : String) (members : List (Score × Bytes))
    (s : CacheStore) : Nat × CacheStore :=
  let base : SortedSetValue × Entry × CacheStore :=
    match s k with
    | some e =>
      if e.is_expired now then
        (freshZSet, Entry.new now (Value.SortedSet freshZSet),
         CacheStore.remove k s)
      else
        match e.value with
        | Value.SortedSet z => (z, e, s)
        | _ => (freshZSet, { e with value := Value.SortedSet freshZSet }, s)
    | none => (freshZSet, Entry.new now (Value.SortedSet freshZSet), s)
  let r := zaddLoop base.1 members 0
  (r.2,
   CacheStore.insert k { base.2.1 with value := Value.SortedSet r.1 } base.2.2)

/-- The `zrem` member loop: `member_scores.remove` yields the old score, which
is then removed from the score-ordered index. -/
def zremLoop (z : SortedSetValue) (members : List Bytes) (removed : Nat) :
    SortedSetValue × Nat :=
  match members with
  | [] => (z, removed)
  | m :: rest =>
    match hmLookup z.member_scores m with
    | some score =>
      zremLoop
        { members := btRemove score z.members,
          member_scores := hmRemove z.member_scores m,
          encoding := z.encoding }
        rest (removed + 1)
    | none => zremLoop z rest removed

/-- Model of `CacheStore::zrem`. -/
def CacheStore.zrem (now : Nat) (k : String) (members : List Bytes)
    (s : CacheStore) : Nat × CacheStore :=
  match s k with
  | some e =>
    if e.is_expired now then (0, CacheStore.remove k s)
    else
      match e.value with
      | Value.SortedSet z =>
        let r := zremLoop z members 0
        (r.2, CacheStore.insert k { e with value := Value.SortedSet r.1 } s)
      | _ => (0, s)
  | none => (0, s)

/-- Model of `ZRangeOptions` (src/commands/mod.rs). -/
structure ZRangeOptions where
  with_scores : Bool
  rev : Bool
deriving DecidableEq, Repr

/-- Model of `CacheStore::zrange`: the same index computation as `lrange`, then an
iterator `skip`/`take` over the score-ordered entries (no slice indexing, so
no abort in a release build); when `with_scores` is false every score is
reported as `0.0`. -/
def CacheStore.zrange (now : Nat) (k : String) (start stop : ℤ)
    (options : ZRangeOptions) (s : CacheStore) :
    Option (List (Bytes × Score)) × CacheStore :=
  match s k with
  | some e =>
    if e.is_expired now then (none, CacheStore.remove k s)
    else
      match e.value with
      | Value.SortedSet z =>
        let idx := rangeIdx z.members.length start stop
        if idx.1 ≥ idx.2 ∨ idx.1 ≥ z.members.length then (some [], s)
        else
          let range := (z.members.drop idx.1).take (idx.2 - idx.1)
          (some (range.map (fun p =>
            if options.with_scores then (p.2, p.1) else (p.2, (0 : Score)))), s)
      | _ => (none, s)
  | none => (none, s)

/-- Model of `CacheStore::zcard` (the length of the score-ordered index). -/
def CacheStore.zcard (now : Nat) (k : String) (s : CacheStore) :
    Nat × CacheStore :=
  match s k with
  | some e =>
    if e.is_expired now then (0, CacheStore.remove k s)
    else
      match e.value with
      | Value.SortedSet z => (z.members.length, s)
      | _ => (0, s)
  | none => (0, s)

/-- Model of `CacheStore::zscore` (a lookup in the reverse index). -/
def CacheStore.zscore (now : Nat) (k : String) (member : Bytes)
    (s : CacheStore) : Option Score × CacheStore :=
  match s k with
  | some e =>
    if e.is_expired now then (none, CacheStore.remove k s)
    else
      match e.value with
      | Value.SortedSet z => (hmLookup z.member_scores member, s)
      | _ => (none, s)
  | none => (none, s)

-- ========== Specification-side definitions ==========

/-- The list-range window exactly as the spec words it (for the refinement
claim about `lrange`): negative indices count from the end (`-1` = last
element), the returned window is inclusive of both resolved bounds,
out-of-range bounds clamp, and an empty or inverted resolved range yields the
empty sequence. -/
def specWindow (l : List Bytes) (start stop : ℤ) : List Bytes :=
  let len : ℤ := l.length
  let s : ℤ := max (if start < 0 then len + start else start) 0
  let e : ℤ := min (if stop < 0 then len + stop else stop) (len - 1)
  if s ≤ e then (l.drop s.toNat).take (e - s + 1).toNat else []

/-- The lazy-expiration contract for a single key: every store operation that
looks the key up behaves (result and resulting store) exactly as it does on
the store with that key erased, and the basic lookups report the key as
absent with the entry gone from the keyspace. -/
def respondsAsAbsent (now : Nat) (k : String) (s : CacheStore) : Prop :=
  (CacheStore.get now k s).1 = none ∧
  (CacheStore.get now k s).2 k = none ∧
  (CacheStore.exists now k s).1 = false ∧
  (CacheStore.exists now k s).2 k = none ∧
  (CacheStore.ttl now k s).1 = none ∧
  (CacheStore.ttl now k s).2 k = none ∧
  CacheStore.get now k s = CacheStore.get now k (CacheStore.remove k s) ∧
  CacheStore.exists now k s = CacheStore.exists now k (CacheStore.remove k s) ∧
  CacheStore.ttl now k s = CacheStore.ttl now k (CacheStore.remove k s) ∧
  (∀ t, CacheStore.expire now k t s
      = CacheStore.expire now k t (CacheStore.remove k s)) ∧
  CacheStore.persist now k s = CacheStore.persist now k (CacheStore.remove k s) ∧
  CacheStore.key_type now k s = CacheStore.key_type now k (CacheStore.remove k s) ∧
  (∀ vs, CacheStore.lpush now k vs s
      = CacheStore.lpush now k vs (CacheStore.remove k s)) ∧
  (∀ vs, CacheStore.rpush now k vs s
      = CacheStore.rpush now k vs (CacheStore.remove k s)) ∧
  (∀ c, CacheStore.lpop now k c s
      = CacheStore.lpop now k c (CacheStore.remove k s)) ∧
  (∀ c, CacheStore.rpop now k c s
      = CacheStore.rpop now k c (CacheStore.remove k s)) ∧
  CacheStore.llen now k s = CacheStore.llen now k (CacheStore.remove k s) ∧
  (∀ a b, CacheStore.lrange now k a b s
      = CacheStore.lrange now k a b (CacheStore.remove k s)) ∧
  (∀ ms, CacheStore.sadd now k ms s
      = CacheStore.sadd now k ms (CacheStore.remove k s)) ∧
  (∀ ms, CacheStore.srem now k ms s
      = CacheStore.srem now k ms (CacheStore.remove k s)) ∧
  CacheStore.smembers now k s = CacheStore.smembers now k (CacheStore.remove k s) ∧
  CacheStore.scard now k s = CacheStore.scard now k (CacheStore.remove k s) ∧
  (∀ m, CacheStore.s_ismember now k m s
      = CacheStore.s_ismember now k m (CacheStore.remove k s)) ∧
  (∀ ps, CacheStore.hset now k ps s
      = CacheStore.hset now k ps (CacheStore.remove k s)) ∧
  (∀ f, CacheStore.hget now k f s
      = CacheStore.hget now k f (CacheStore.remove k s)) ∧
  (∀ fs, CacheStore.hdel now k fs s
      = CacheStore.hdel now k fs (CacheStore.remove k s)) ∧
  (∀ ps, CacheStore.hmset now k ps s
      = CacheStore.hmset now k ps (CacheStore.remove k s)) ∧
  (∀ fs, CacheStore.hmget now k fs s
      = CacheStore.hmget now k fs (CacheStore.remove k s)) ∧
  (∀ f, CacheStore.hexists now k f s
      = CacheStore.hexists now k f (CacheStore.remove k s)) ∧
  CacheStore.hlen now k s = CacheStore.hlen now k (CacheStore.remove k s) ∧
  CacheStore.hkeys now k s = CacheStore.hkeys now k (CacheStore.remove k s) ∧
  CacheStore.hvals now k s = CacheStore.hvals now k (CacheStore.remove k s) ∧
  CacheStore.hgetall now k s = CacheStore.hgetall now k (CacheStore.remove k s) ∧
  (∀ ms, CacheStore.zadd now k ms s
      = CacheStore.zadd now k ms (CacheStore.remove k s)) ∧
  (∀ ms, CacheStore.zrem now k ms s
      = CacheStore.zrem now k ms (CacheStore.remove k s)) ∧
  (∀ a b o, CacheStore.zrange now k a b o s
      = CacheStore.zrange now k a b o (CacheStore.remove k s)) ∧
  CacheStore.zcard now k s = CacheStore.zcard now k (CacheStore.remove k s) ∧
  (∀ m, CacheStore.zscore now k m s
      = CacheStore.zscore now k m (CacheStore.remove k s))

-- ========== Concrete stores used by closed theorems ==========

/-- An entry that expired at tick 5 (all witnesses query it at tick 10). -/
def expiredEntry : Entry :=
  { value := Value.String { data := "v", encoding := StringEncoding.Embstr },
    expires_at := some 5, created_at := 0, last_accessed := none }

/-- A store holding only the expired entry under `"k"`. -/
def expiredStore : CacheStore :=
  CacheStore.insert "k" expiredEntry CacheStore.empty

/-- A store holding the four-element list `[a, b, c, d]` under `"k"`. -/
def fourListStore : CacheStore :=
  CacheStore.insert "k"
    { value := Value.List
        { elements := ["a", "b", "c", "d"], encoding := ListEncoding.Quicklist },
      expires_at := none, created_at := 0, last_accessed := none }
    CacheStore.empty

/-- A store holding the one-element list `["a"]` under `"k"`. -/
def oneListStore : CacheStore :=
  CacheStore.insert "k"
    { value := Value.List { elements := ["a"], encoding := ListEncoding.Quicklist },
      expires_at := none, created_at := 0, last_accessed := none }
    CacheStore.empty

/-- A store holding the unexpired string `"v"` under `"k"`. -/
def stringStore : CacheStore :=
  CacheStore.insert "k"
    { value := Value.String { data := "v", encoding := StringEncoding.Embstr },
      expires_at := none, created_at := 0, last_accessed := none }
    CacheStore.empty

/-- The store after `zadd(k, [(1,"a"),(2,"b")])` then `zadd(k, [(5,"a")])`
from an empty store (the §8 sorted-set scenario of the spec). -/
def c2Store : CacheStore :=
  (CacheStore.zadd 1 "k" [(5, "a")]
    (CacheStore.zadd 0 "k" [(1, "a"), (2, "b")] CacheStore.empty).2).2

-- ========== Helper lemmas ==========

theorem CacheStore.remove_self (k : String) (s : CacheStore) :
    CacheStore.remove k s k = none := by
  simp [CacheStore.remove]

theorem CacheStore.insert_self {k : String} {e : Entry} {s : CacheStore}
    (h : s k = some e) : CacheStore.insert k e s = s := by
  funext k'
  by_cases hk : k' = k
  · subst hk; simp [CacheStore.insert, h]
  · simp [CacheStore.insert, hk]

theorem CacheStore.insert_apply (k : String) (e : Entry) (s : CacheStore) :
    CacheStore.insert k e s k = some e := by
  simp [CacheStore.insert]

theorem lpushPrepend_eq (values elements : List Bytes) :
    lpushPrepend values elements = values ++ elements := by
  induction values generalizing elements with
  | nil => simp [lpushPrepend]
  | cons v vs ih =>
    have step : lpushPrepend (v :: vs) elements = v :: lpushPrepend vs elements := by
      simp [lpushPrepend, List.foldl_append]
    rw [step, ih]; exact rfl

theorem lpopLoop_eq : ∀ (n : Nat) (l : List Bytes),
    lpopLoop n l = (l.take n, l.drop n)
  | 0, _ => by simp [lpopLoop]
  | _ + 1, [] => by simp [lpopLoop]
  | n + 1, x :: xs => by simp [lpopLoop, lpopLoop_eq n xs]

theorem popRight_concat : ∀ (l : List Bytes) (x : Bytes),
    popRight (l ++ [x]) = some (x, l)
  | [], _ => rfl
  | [_], _ => rfl
  | y :: z :: l, x => by
    show popRight (y :: z :: (l ++ [x])) = some (x, y :: z :: l)
    have ih : popRight (z :: (l ++ [x])) = some (x, z :: l) :=
      popRight_concat (z :: l) x
    simp [popRight, ih]

theorem rpopLoop_eq (n : Nat) : ∀ (l : List Bytes),
    rpopLoop n l = (l.reverse.take n, (l.reverse.drop n).reverse) := by
  induction n with
  | zero => intro l; simp [rpopLoop]
  | succ n ih =>
    intro l
    rcases l.eq_nil_or_concat with rfl | ⟨l', x, rfl⟩
    · simp [rpopLoop, popRight]
    · simp only [List.concat_eq_append]
      simp only [rpopLoop, popRight_concat, ih l', List.reverse_append,
        List.reverse_cons, List.reverse_nil, List.nil_append,
        List.singleton_append, List.take_succ_cons, List.drop_succ_cons]

theorem wrap64_eq_self {z : ℤ} (h1 : -(2 ^ 63) ≤ z) (h2 : z < 2 ^ 63) :
    wrap64 z = z := by
  unfold wrap64
  omega

theorem castUsize_eq {z : ℤ} (h1 : 0 ≤ z) (h2 : z < 2 ^ 64) :
    castUsize z = z.toNat := by
  unfold castUsize
  omega

/-- Under realistic `i64` bounds (`stop < i64::MAX`, length below `2^63`) the
index computation of `lrange`/`zrange` is exact clamping, with no wrap. -/
theorem rangeIdx_eq {length : ℕ} {start stop : ℤ}
    (hlen : (length : ℤ) < 2 ^ 63)
    (hs1 : -(2 ^ 63) ≤ start) (hs2 : start < 2 ^ 63)
    (ht1 : -(2 ^ 63) ≤ stop) (ht2 : stop < 2 ^ 63 - 1) :
    rangeIdx length start stop =
      ((min (max (if start < 0 then (length : ℤ) + start else start) 0)
          (length : ℤ)).toNat,
       (max (min (if stop < 0 then (length : ℤ) + stop else stop)
          ((length : ℤ) - 1) + 1) 0).toNat) := by
  have h0 : (0 : ℤ) ≤ (length : ℤ) := Int.natCast_nonneg length
  have hw : wrap64 (length : ℤ) = (length : ℤ) :=
    wrap64_eq_self (by omega) (by omega)
  simp only [rangeIdx, hw, Prod.mk.injEq]
  constructor
  · split_ifs with h
    · rw [wrap64_eq_self (by omega) (by omega), castUsize_eq (by omega) (by omega)]
      omega
    · rw [castUsize_eq (by omega) (by omega)]
      omega
  · split_ifs with h
    · have hw1 : wrap64 ((length : ℤ) + stop) = (length : ℤ) + stop :=
        wrap64_eq_self (by omega) (by omega)
      rw [hw1]
      have hw2 : wrap64 ((length : ℤ) + stop + 1) = (length : ℤ) + stop + 1 :=
        wrap64_eq_self (by omega) (by omega)
      rw [hw2, castUsize_eq (by omega) (by omega)]
      omega
    · rw [wrap64_eq_self (by omega) (by omega), castUsize_eq (by omega) (by omega)]
      omega

/-- The guarded slice of `lrange` coincides with the spec's inclusive clamped
window, for arbitrary resolved bounds `rs`, `re`. -/
theorem clamp_slice_eq (l : List Bytes) (rs re : ℤ) :
    (if (min (max rs 0) (l.length : ℤ)).toNat
          ≥ (max (min re ((l.length : ℤ) - 1) + 1) 0).toNat
        ∨ (min (max rs 0) (l.length : ℤ)).toNat ≥ l.length
     then ([] : List Bytes)
     else (l.drop (min (max rs 0) (l.length : ℤ)).toNat).take
        ((max (min re ((l.length : ℤ) - 1) + 1) 0).toNat
          - (min (max rs 0) (l.length : ℤ)).toNat)) =
    (if max rs 0 ≤ min re ((l.length : ℤ) - 1) then
       (l.drop (max rs 0).toNat).take
         ((min re ((l.length : ℤ) - 1) - max rs 0 + 1).toNat)
     else []) := by
  by_cases h : max rs 0 ≤ min re ((l.length : ℤ) - 1)
  · rw [if_pos h, if_neg (by omega)]
    have hA : (min (max rs 0) (l.length : ℤ)).toNat = (max rs 0).toNat := by omega
    rw [hA]
    congr 1
    omega
  · rw [if_neg h, if_pos (by omega)]

-- ========== Claim theorems ==========

/-- C1 (refuting evaluation): the dual-index invariant FAILS in the code.
After `zadd(k, [(1,"a"),(1,"b")])` on an empty store, the reverse map
`member_scores` holds two members, but the score-ordered `BTreeMap` — keyed by
score alone — holds a single slot `(1, "b")` (inserting `"b"` at score 1
overwrote `"a"`): the two maps do not have equal size, `"a"` occupies no
score-ordered slot (it is missing from `zrange`) although `zscore` still
reports its score. -/
theorem C1_zadd_equal_scores_desync :
    (CacheStore.zadd 0 "k" [(1, "a"), (1, "b")] CacheStore.empty).2 "k" =
      some { value := Value.SortedSet
               { members := [(1, "b")],
                 member_scores := [("a", 1), ("b", 1)],
                 encoding := SortedSetEncoding.SkipList },
             expires_at := none, created_at := 0, last_accessed := none } ∧
    (CacheStore.zscore 0 "k" "a"
        (CacheStore.zadd 0 "k" [(1, "a"), (1, "b")] CacheStore.empty).2).1
      = some 1 ∧
    (CacheStore.zrange 0 "k" 0 (-1) { with_scores := true, rev := false }
        (CacheStore.zadd 0 "k" [(1, "a"), (1, "b")] CacheStore.empty).2).1
      = some [("b", 1)] ∧
    (CacheStore.zcard 0 "k"
        (CacheStore.zadd 0 "k" [(1, "a"), (1, "b")] CacheStore.empty).2).1
      = 1 :=
  ⟨by decide, by decide, by rfl, by decide⟩

/-- C2 (refuting evaluation): `CacheStore::zadd` SKIPS a member that is
already present instead of updating its score.  In the spec's §8 scenario the
second `zadd` does return 0 and `zcard` does return 2, but `zscore(k,"a")`
returns `Some(1)` (not 5) and `zrange(k,0,-1,true)` returns
`[("a",1),("b",2)]` (not `[("b",2),("a",5)]`). -/
theorem C2_zadd_skips_existing_member :
    (CacheStore.zadd 1 "k" [(5, "a")]
        (CacheStore.zadd 0 "k" [(1, "a"), (2, "b")] CacheStore.empty).2).1
      = 0 ∧
    (CacheStore.zscore 2 "k" "a" c2Store).1 = some 1 ∧
    (CacheStore.zscore 2 "k" "a" c2Store).1 ≠ some 5 ∧
    (CacheStore.zcard 2 "k" c2Store).1 = 2 ∧
    (CacheStore.zrange 2 "k" 0 (-1) { with_scores := true, rev := false }
        c2Store).1 = some [("a", 1), ("b", 2)] :=
  ⟨by decide, by decide, by decide, by decide, by rfl⟩

/-- C10 (refuting evaluation): `lrange` does NOT return for every `i64`
bound.  On the list `[a,b,c,d]`, `lrange(k, 0, i64::MAX)` computes
`stop + 1 = 2^63`, which wraps to `i64::MIN`; the `as usize` cast turns it
into `2^63`, and the slice `elements[0..2^63]` is out of range — the store
panics (a debug build already aborts at the `stop + 1` overflow).  An
in-range `stop` works fine. -/
theorem C10_lrange_index_overflow :
    (CacheStore.lrange 0 "k" 0 (2 ^ 63 - 1) fourListStore).1
      = Except.error () ∧
    (CacheStore.lrange 0 "k" 0 3 fourListStore).1
      = Except.ok (some ["a", "b", "c", "d"]) :=
  ⟨by rfl, by rfl⟩

/-- Overwriting an entry's value leaves its expiration state unchanged. -/
theorem Entry.is_expired_set_value (e : Entry) (v : Value) (now : Nat) :
    Entry.is_expired { e with value := v } now = e.is_expired now := rfl

/-- C3 counterexample: with `"k"` holding the unexpired string `"v"`,
`lpush(k, ["x"])` does not report a type-mismatch error — it returns the new
length 1 and silently replaces the value, so `get(k)` afterwards returns the
list `["x"]`, not the string `"v"`. -/
theorem C3_counterexample :
    stringStore "k" = some
      { value := Value.String { data := "v", encoding := StringEncoding.Embstr },
        expires_at := none, created_at := 0, last_accessed := none } ∧
    (CacheStore.lpush 1 "k" ["x"] stringStore).1 = 1 ∧
    (CacheStore.get 2 "k" (CacheStore.lpush 1 "k" ["x"] stringStore).2).1
      = some (Value.List { elements := ["x"], encoding := ListEncoding.Quicklist }) ∧
    (CacheStore.get 2 "k" (CacheStore.lpush 1 "k" ["x"] stringStore).2).1
      ≠ some (Value.String { data := "v", encoding := StringEncoding.Embstr }) :=
  ⟨by rfl, by rfl, by rfl, by decide⟩

/-- C3 (amended): `lpush` onto a key holding an unexpired String value
silently overwrites the key with a fresh list holding exactly the pushed
values (the entry keeps its expiration metadata) and returns the number
pushed; `get(k)` afterwards returns that List value — never the old String. -/
theorem C3_lpush_coerces_string (now : Nat) (k : String) (s : CacheStore)
    (e : Entry) (sv : StringValue) (xs : List Bytes)
    (hk : s k = some e) (hex : e.is_expired now = false)
    (hv : e.value = Value.String sv) :
    (CacheStore.lpush now k xs s).1 = xs.length ∧
    (CacheStore.lpush now k xs s).2 k
      = some { e with value := Value.List ⟨xs, ListEncoding.Quicklist⟩ } ∧
    (CacheStore.get now k (CacheStore.lpush now k xs s).2).1
      = some (Value.List { elements := xs, encoding := ListEncoding.Quicklist }) ∧
    ∀ sv' : StringValue,
      (CacheStore.get now k (CacheStore.lpush now k xs s).2).1
        ≠ some (Value.String sv') := by
  have hp : CacheStore.lpush now k xs s
      = (xs.length,
         CacheStore.insert k
           { e with value := Value.List ⟨xs, ListEncoding.Quicklist⟩ } s) := by
    simp [CacheStore.lpush, hk, hex, hv, freshList, lpushPrepend_eq]
  have hg : (CacheStore.get now k (CacheStore.lpush now k xs s).2).1
      = some (Value.List { elements := xs, encoding := ListEncoding.Quicklist }) := by
    rw [hp]
    simp [CacheStore.get, CacheStore.insert_apply, Entry.is_expired_set_value, hex]
  refine ⟨by rw [hp], by rw [hp]; exact CacheStore.insert_apply k _ s, hg, ?_⟩
  intro sv' hcontra
  rw [hg] at hcontra
  simp at hcontra

/-- C3 witness: the amended statement at the concrete store. -/
theorem C3_lpush_coerces_string_witness :
    stringStore "k" = some
      { value := Value.String { data := "v", encoding := StringEncoding.Embstr },
        expires_at := none, created_at := 0, last_accessed := none } ∧
    ((CacheStore.lpush 1 "k" ["x", "y"] stringStore).1 = 2 ∧
     (CacheStore.lpush 1 "k" ["x", "y"] stringStore).2 "k"
       = some { value := Value.List
                  { elements := ["x", "y"], encoding := ListEncoding.Quicklist },
                expires_at := none, created_at := 0, last_accessed := none } ∧
     (CacheStore.get 1 "k" (CacheStore.lpush 1 "k" ["x", "y"] stringStore).2).1
       = some (Value.List { elements := ["x", "y"], encoding := ListEncoding.Quicklist }) ∧
     ∀ sv' : StringValue,
       (CacheStore.get 1 "k" (CacheStore.lpush 1 "k" ["x", "y"] stringStore).2).1
         ≠ some (Value.String sv')) :=
  ⟨rfl, C3_lpush_coerces_string 1 "k" stringStore _ _ ["x", "y"] rfl rfl rfl⟩

/-- C4 counterexample: `lpush(k, ["a","b"])` on an absent key does return
2, but `lrange(k, 0, -1)` afterwards returns `["a","b"]` — the FIRST-given
value ends up closest to the head, not the last-given one as claimed
(`["b","a"]`). -/
theorem C4_counterexample :
    (CacheStore.lpush 0 "k" ["a", "b"] CacheStore.empty).1 = 2 ∧
    (CacheStore.lrange 1 "k" 0 (-1)
        (CacheStore.lpush 0 "k" ["a", "b"] CacheStore.empty).2).1
      = Except.ok (some ["a", "b"]) ∧
    (CacheStore.lrange 1 "k" 0 (-1)
        (CacheStore.lpush 0 "k" ["a", "b"] CacheStore.empty).2).1
      ≠ Except.ok (some ["b", "a"]) :=
  ⟨by rfl, by rfl, by
    intro h
    rw [show (CacheStore.lrange 1 "k" 0 (-1)
        (CacheStore.lpush 0 "k" ["a", "b"] CacheStore.empty).2).1
      = Except.ok (some ["a", "b"]) from rfl] at h
    simp at h⟩

/-- C4 (amended): for an absent key and non-empty values
`[v1, ..., vn]`, `lpush` returns `n` and prepends the argument block in its
given order, so the FIRST-given value ends up closest to the head:
`lrange(k, 0, -1)` afterwards returns `[v1, ..., vn]`. -/
theorem C4_lpush_argument_order (now : Nat) (k : String) (s : CacheStore)
    (xs : List Bytes) (hk : s k = none) (hne : xs ≠ [])
    (hlen : (xs.length : ℤ) < 2 ^ 63) :
    (CacheStore.lpush now k xs s).1 = xs.length ∧
    (CacheStore.lrange now k 0 (-1) (CacheStore.lpush now k xs s).2).1
      = Except.ok (some xs) := by
  have hp : CacheStore.lpush now k xs s
      = (xs.length,
         CacheStore.insert k
           { value := Value.List ⟨xs, ListEncoding.Quicklist⟩,
             expires_at := none, created_at := now, last_accessed := none } s) := by
    simp [CacheStore.lpush, hk, freshList, lpushPrepend_eq, Entry.new]
  refine ⟨by rw [hp], ?_⟩
  rw [hp]
  simp only [CacheStore.lrange, CacheStore.insert_apply, Entry.is_expired]
  rw [rangeIdx_eq hlen (by norm_num) (by norm_num) (by norm_num) (by norm_num)]
  have hxl : xs.length ≠ 0 := fun h => hne (List.length_eq_zero.mp h)
  have hA : (min (max (if (0 : ℤ) < 0 then (xs.length : ℤ) + 0 else 0) 0)
      (xs.length : ℤ)).toNat = 0 := by norm_num
  have hB : (max (min (if (-1 : ℤ) < 0 then (xs.length : ℤ) + (-1) else (-1))
      ((xs.length : ℤ) - 1) + 1) 0).toNat = xs.length := by
    norm_num
  rw [hA, hB]
  have hguard : ¬ (0 ≥ xs.length ∨ 0 ≥ xs.length) := by omega
  rw [if_neg hguard, if_pos (le_refl xs.length)]
  simp

/-- C4 witness: the amended statement at a concrete input. -/
theorem C4_lpush_argument_order_witness :
    (CacheStore.empty "k" = (none : Option Entry)) ∧
    (["a", "b", "c"] : List Bytes) ≠ [] ∧
    (((["a", "b", "c"] : List Bytes).length : ℤ) < 2 ^ 63) ∧
    ((CacheStore.lpush 0 "k" ["a", "b", "c"] CacheStore.empty).1 = 3 ∧
     (CacheStore.lrange 0 "k" 0 (-1)
         (CacheStore.lpush 0 "k" ["a", "b", "c"] CacheStore.empty).2).1
       = Except.ok (some ["a", "b", "c"])) :=
  ⟨rfl, by decide, by decide,
   C4_lpush_argument_order 0 "k" CacheStore.empty ["a", "b", "c"] rfl
     (by decide) (by decide)⟩

/-- C6 counterexample: on the unexpired list `[a,b,c,d]` the general
"out-of-range bounds clamp rather than error" clause fails at
`stop = i64::MAX`: `lrange(k, 0, 2^63 - 1)` panics (`stop + 1` wraps and the
slice bound becomes `2^63`) instead of clamping. -/
theorem C6_counterexample :
    fourListStore "k" = some
      { value := Value.List
          { elements := ["a", "b", "c", "d"], encoding := ListEncoding.Quicklist },
        expires_at := none, created_at := 0, last_accessed := none } ∧
    (CacheStore.lrange 0 "k" 0 (2 ^ 63 - 1) fourListStore).1 ≠
      Except.ok (some ["a", "b", "c", "d"]) ∧
    (CacheStore.lrange 0 "k" 0 (2 ^ 63 - 1) fourListStore).1 = Except.error () :=
  ⟨by rfl, by
    intro h
    rw [show (CacheStore.lrange 0 "k" 0 (2 ^ 63 - 1) fourListStore).1
      = Except.error () from rfl] at h
    simp at h, by rfl⟩

/-- C6 (amended): for every key holding an unexpired list, `lrange`
realises exactly the spec's inclusive clamped window (`specWindow`) — negative
indices count from the end, both resolved bounds included, out-of-range
bounds clamped, empty/inverted ranges giving `Some([])` — for every `i64`
`start` and every `i64` `stop` strictly below `i64::MAX` (at
`stop = i64::MAX` the `stop + 1` computation overflows instead of clamping);
in particular the three §8 window scenarios on `[a,b,c,d]` hold. -/
theorem C6_lrange_inclusive_clamped (now : Nat) (k : String) (s : CacheStore)
    (e : Entry) (l : ListValue) (a b c d : Bytes)
    (hk : s k = some e) (hex : e.is_expired now = false)
    (hv : e.value = Value.List l) :
    (∀ start stop : ℤ, -(2 ^ 63) ≤ start → start < 2 ^ 63 →
        -(2 ^ 63) ≤ stop → stop < 2 ^ 63 - 1 →
        (l.elements.length : ℤ) < 2 ^ 63 →
        CacheStore.lrange now k start stop s
          = (Except.ok (some (specWindow l.elements start stop)), s)) ∧
    (l.elements = [a, b, c, d] →
      (CacheStore.lrange now k 0 (-1) s).1 = Except.ok (some [a, b, c, d]) ∧
      (CacheStore.lrange now k 1 2 s).1 = Except.ok (some [b, c]) ∧
      (CacheStore.lrange now k (-100) 100 s).1
        = Except.ok (some [a, b, c, d])) := by
  have hgen : ∀ start stop : ℤ, -(2 ^ 63) ≤ start → start < 2 ^ 63 →
      -(2 ^ 63) ≤ stop → stop < 2 ^ 63 - 1 →
      (l.elements.length : ℤ) < 2 ^ 63 →
      CacheStore.lrange now k start stop s
        = (Except.ok (some (specWindow l.elements start stop)), s) := by
    intro start stop hs1 hs2 ht1 ht2 hlen
    simp only [CacheStore.lrange, hk, hex, Bool.false_eq_true, if_false, hv]
    rw [rangeIdx_eq hlen hs1 hs2 ht1 ht2]
    have hCS := clamp_slice_eq l.elements
      (if start < 0 then (l.elements.length : ℤ) + start else start)
      (if stop < 0 then (l.elements.length : ℤ) + stop else stop)
    have hSW : specWindow l.elements start stop
        = (if max (if start < 0 then (l.elements.length : ℤ) + start else start) 0
              ≤ min (if stop < 0 then (l.elements.length : ℤ) + stop else stop)
                  ((l.elements.length : ℤ) - 1)
           then (l.elements.drop
                  (max (if start < 0 then (l.elements.length : ℤ) + start else start)
                    0).toNat).take
                  ((min (if stop < 0 then (l.elements.length : ℤ) + stop else stop)
                      ((l.elements.length : ℤ) - 1)
                    - max (if start < 0 then (l.elements.length : ℤ) + start else start)
                      0 + 1).toNat)
           else []) := rfl
    rw [hSW, ← hCS]
    split_ifs <;> first | rfl | (exfalso; omega)
  refine ⟨hgen, fun hl => ⟨?_, ?_, ?_⟩⟩
  · have hlen4 : (l.elements.length : ℤ) < 2 ^ 63 := by rw [hl]; norm_num
    rw [hgen 0 (-1) (by norm_num) (by norm_num) (by norm_num) (by norm_num) hlen4,
      hl]
    norm_num [specWindow]
  · have hlen4 : (l.elements.length : ℤ) < 2 ^ 63 := by rw [hl]; norm_num
    rw [hgen 1 2 (by norm_num) (by norm_num) (by norm_num) (by norm_num) hlen4, hl]
    norm_num [specWindow]
    rfl
  · have hlen4 : (l.elements.length : ℤ) < 2 ^ 63 := by rw [hl]; norm_num
    rw [hgen (-100) 100 (by norm_num) (by norm_num) (by norm_num) (by norm_num)
      hlen4, hl]
    norm_num [specWindow]

/-- C6 witness: the amended statement at the concrete four-element list. -/
theorem C6_lrange_inclusive_clamped_witness :
    fourListStore "k" = some
      { value := Value.List
          { elements := ["a", "b", "c", "d"], encoding := ListEncoding.Quicklist },
        expires_at := none, created_at := 0, last_accessed := none } ∧
    Entry.is_expired
      { value := Value.List
          { elements := ["a", "b", "c", "d"], encoding := ListEncoding.Quicklist },
        expires_at := none, created_at := 0, last_accessed := none } 0 = false ∧
    ((∀ start stop : ℤ, -(2 ^ 63) ≤ start → start < 2 ^ 63 →
        -(2 ^ 63) ≤ stop → stop < 2 ^ 63 - 1 →
        ((["a", "b", "c", "d"] : List Bytes).length : ℤ) < 2 ^ 63 →
        CacheStore.lrange 0 "k" start stop fourListStore
          = (Except.ok (some (specWindow ["a", "b", "c", "d"] start stop)),
             fourListStore)) ∧
     ((["a", "b", "c", "d"] : List Bytes) = ["a", "b", "c", "d"] →
       (CacheStore.lrange 0 "k" 0 (-1) fourListStore).1
         = Except.ok (some ["a", "b", "c", "d"]) ∧
       (CacheStore.lrange 0 "k" 1 2 fourListStore).1
         = Except.ok (some ["b", "c"]) ∧
       (CacheStore.lrange 0 "k" (-100) 100 fourListStore).1
         = Except.ok (some ["a", "b", "c", "d"]))) :=
  ⟨rfl, rfl,
   C6_lrange_inclusive_clamped 0 "k" fourListStore
     { value := Value.List
         { elements := ["a", "b", "c", "d"], encoding := ListEncoding.Quicklist },
       expires_at := none, created_at := 0, last_accessed := none }
     { elements := ["a", "b", "c", "d"], encoding := ListEncoding.Quicklist }
     "a" "b" "c" "d" rfl rfl rfl⟩

/-- A `take` is empty iff the count is zero or the list is empty. -/
theorem take_nil_iff (n : Nat) (l : List Bytes) :
    l.take n = [] ↔ n = 0 ∨ l = [] := by
  cases n <;> cases l <;> simp

/-- C7 counterexample: with `"k"` holding the unexpired non-empty list
`["a"]`, `lpop(k, 0)` returns `None` although the key is present, unexpired
and its list non-empty — `None` is not returned "only when the key is
absent, expired, or its list is empty". -/
theorem C7_counterexample :
    oneListStore "k" = some
      { value := Value.List { elements := ["a"], encoding := ListEncoding.Quicklist },
        expires_at := none, created_at := 0, last_accessed := none } ∧
    Entry.is_expired
      { value := Value.List { elements := ["a"], encoding := ListEncoding.Quicklist },
        expires_at := none, created_at := 0, last_accessed := none } 0 = false ∧
    (["a"] : List Bytes) ≠ [] ∧
    (CacheStore.lpop 0 "k" 0 oneListStore).1 = none ∧
    (CacheStore.rpop 0 "k" 0 oneListStore).1 = none :=
  ⟨rfl, rfl, by decide, rfl, rfl⟩

/-- C7 (amended): `lpop(k,c)`/`rpop(k,c)` return `None` exactly when the
key is absent, expired, holds a non-list value, or no element is popped (the
list is empty or `c = 0`); in every other case they return `Some` of the up
to `c` elements popped from the respective end (possibly fewer than `c`). -/
theorem C7_pop_characterization (now : Nat) (k : String) (count : Nat)
    (s : CacheStore) :
    (∀ e l, s k = some e → e.is_expired now = false → e.value = Value.List l →
      ((CacheStore.lpop now k count s).1
          = if count = 0 ∨ l.elements = [] then none
            else some (l.elements.take count)) ∧
      ((CacheStore.rpop now k count s).1
          = if count = 0 ∨ l.elements = [] then none
            else some (l.elements.reverse.take count))) ∧
    (s k = none → (CacheStore.lpop now k count s).1 = none
      ∧ (CacheStore.rpop now k count s).1 = none) ∧
    (∀ e, s k = some e → e.is_expired now = true →
      (CacheStore.lpop now k count s).1 = none
      ∧ (CacheStore.rpop now k count s).1 = none) ∧
    (∀ e, s k = some e → e.is_expired now = false →
      (∀ l, e.value ≠ Value.List l) →
      (CacheStore.lpop now k count s).1 = none
      ∧ (CacheStore.rpop now k count s).1 = none) := by
  refine ⟨?_, ?_, ?_, ?_⟩
  · intro e l hk hex hv
    constructor
    · simp only [CacheStore.lpop, hk, hex, Bool.false_eq_true, if_false, hv,
        lpopLoop_eq]
      by_cases h : count = 0 ∨ l.elements = []
      · rw [if_pos h]
        have ht : l.elements.take count = [] := (take_nil_iff count l.elements).mpr h
        simp [ht]
      · rw [if_neg h]
        have ht : ¬ l.elements.take count = [] := fun hc =>
          h ((take_nil_iff count l.elements).mp hc)
        simp [List.isEmpty_iff, ht]
    · simp only [CacheStore.rpop, hk, hex, Bool.false_eq_true, if_false, hv,
        rpopLoop_eq]
      by_cases h : count = 0 ∨ l.elements = []
      · rw [if_pos h]
        have ht : l.elements.reverse.take count = [] :=
          (take_nil_iff count l.elements.reverse).mpr
            (h.elim (fun h0 => Or.inl h0) (fun h0 => Or.inr (by simp [h0])))
        simp [ht]
      · rw [if_neg h]
        have ht : ¬ l.elements.reverse.take count = [] := fun hc =>
          h ((take_nil_iff count l.elements.reverse).mp hc |>.elim
            (fun h0 => Or.inl h0) (fun h0 => Or.inr (by simpa using h0)))
        simp [List.isEmpty_iff, ht]
  · intro hk
    constructor <;> simp [CacheStore.lpop, CacheStore.rpop, hk]
  · intro e hk hex
    constructor <;> simp [CacheStore.lpop, CacheStore.rpop, hk, hex]
  · intro e hk hex hnl
    constructor
    · simp only [CacheStore.lpop, hk, hex, Bool.false_eq_true, if_false]
    · simp only [CacheStore.rpop, hk, hex, Bool.false_eq_true, if_false]

/-- C7 witness: the amended statement on the four-element list with
`count = 2`, with the popped prefix/suffix it implies. -/
theorem C7_pop_characterization_witness :
    ((∀ e l, fourListStore "k" = some e → e.is_expired 0 = false →
        e.value = Value.List l →
      ((CacheStore.lpop 0 "k" 2 fourListStore).1
          = if 2 = 0 ∨ l.elements = [] then none
            else some (l.elements.take 2)) ∧
      ((CacheStore.rpop 0 "k" 2 fourListStore).1
          = if 2 = 0 ∨ l.elements = [] then none
            else some (l.elements.reverse.take 2))) ∧
     (fourListStore "k" = none →
       (CacheStore.lpop 0 "k" 2 fourListStore).1 = none
       ∧ (CacheStore.rpop 0 "k" 2 fourListStore).1 = none) ∧
     (∀ e, fourListStore "k" = some e → e.is_expired 0 = true →
       (CacheStore.lpop 0 "k" 2 fourListStore).1 = none
       ∧ (CacheStore.rpop 0 "k" 2 fourListStore).1 = none) ∧
     (∀ e, fourListStore "k" = some e → e.is_expired 0 = false →
       (∀ l, e.value ≠ Value.List l) →
       (CacheStore.lpop 0 "k" 2 fourListStore).1 = none
       ∧ (CacheStore.rpop 0 "k" 2 fourListStore).1 = none)) ∧
    (CacheStore.lpop 0 "k" 2 fourListStore).1 = some ["a", "b"] ∧
    (CacheStore.rpop 0 "k" 2 fourListStore).1 = some ["d", "c"] :=
  ⟨C7_pop_characterization 0 "k" 2 fourListStore, rfl, rfl⟩

/-- C8: set idempotence.  For an absent key and distinct members
`x ≠ y`: `sadd(k,[x,x,y])` returns 2 (the in-call duplicate counts once), a
subsequent `sadd(k,[x])` returns 0 and leaves the store unchanged, and
`scard(k)` then returns `Some 2`. -/
theorem C8_sadd_idempotent (n₁ n₂ n₃ : Nat) (k x y : String) (s : CacheStore)
    (hk : s k = none) (hxy : x ≠ y) :
    (CacheStore.sadd n₁ k [x, x, y] s).1 = 2 ∧
    (CacheStore.sadd n₂ k [x] (CacheStore.sadd n₁ k [x, x, y] s).2).1 = 0 ∧
    (CacheStore.sadd n₂ k [x] (CacheStore.sadd n₁ k [x, x, y] s).2).2
      = (CacheStore.sadd n₁ k [x, x, y] s).2 ∧
    (CacheStore.scard n₃ k
        (CacheStore.sadd n₂ k [x] (CacheStore.sadd n₁ k [x, x, y] s).2).2).1
      = some 2 := by
  have hyx : ¬ (y = x) := fun h => hxy h.symm
  have h1 : CacheStore.sadd n₁ k [x, x, y] s
      = (2, CacheStore.insert k
          { value := Value.Set { members := [x, y], encoding := SetEncoding.HashTable },
            expires_at := none, created_at := n₁, last_accessed := none } s) := by
    simp [CacheStore.sadd, hk, freshSet, hsInsert, hyx, Entry.new]
  have hks : (CacheStore.sadd n₁ k [x, x, y] s).2 k
      = some { value := Value.Set { members := [x, y], encoding := SetEncoding.HashTable },
               expires_at := none, created_at := n₁, last_accessed := none } := by
    rw [h1]
    exact CacheStore.insert_apply k _ s
  have h2 : CacheStore.sadd n₂ k [x] (CacheStore.sadd n₁ k [x, x, y] s).2
      = (0, (CacheStore.sadd n₁ k [x, x, y] s).2) := by
    have hstep : ∀ s1 : CacheStore,
        s1 k = some { value := Value.Set
                        { members := [x, y], encoding := SetEncoding.HashTable },
                      expires_at := none, created_at := n₁, last_accessed := none } →
        CacheStore.sadd n₂ k [x] s1
          = (0, CacheStore.insert k
              { value := Value.Set
                  { members := [x, y], encoding := SetEncoding.HashTable },
                expires_at := none, created_at := n₁, last_accessed := none } s1) := by
      intro s1 hs1
      simp [CacheStore.sadd, hs1, Entry.is_expired, hsInsert]
    rw [hstep _ hks, CacheStore.insert_self hks]
  refine ⟨by rw [h1], by rw [h2], by rw [h2], ?_⟩
  rw [h2]
  simp [CacheStore.scard, hks, Entry.is_expired]

/-- C8 witness: the statement at concrete members. -/
theorem C8_sadd_idempotent_witness :
    (CacheStore.empty "k" = (none : Option Entry)) ∧
    ("x" : String) ≠ "y" ∧
    ((CacheStore.sadd 0 "k" ["x", "x", "y"] CacheStore.empty).1 = 2 ∧
     (CacheStore.sadd 1 "k" ["x"]
        (CacheStore.sadd 0 "k" ["x", "x", "y"] CacheStore.empty).2).1 = 0 ∧
     (CacheStore.sadd 1 "k" ["x"]
        (CacheStore.sadd 0 "k" ["x", "x", "y"] CacheStore.empty).2).2
       = (CacheStore.sadd 0 "k" ["x", "x", "y"] CacheStore.empty).2 ∧
     (CacheStore.scard 2 "k"
        (CacheStore.sadd 1 "k" ["x"]
          (CacheStore.sadd 0 "k" ["x", "x", "y"] CacheStore.empty).2).2).1
       = some 2) :=
  ⟨rfl, by decide,
   C8_sadd_idempotent 0 1 2 "k" "x" "y" CacheStore.empty rfl (by decide)⟩

/-- C9: hash field-count accounting.  For an absent key and distinct
fields `f1 ≠ f2`: `hset(k,[(f1,v1)])` returns 1; `hset(k,[(f1,v2),(f2,v3)])`
returns 1 (only `f2` is newly created, while `f1`'s value is still replaced);
`hget(k,f1)` afterwards returns `Some v2`. -/
theorem C9_hset_field_accounting (n₁ n₂ n₃ : Nat) (k f1 f2 v1 v2 v3 : String)
    (s : CacheStore) (hk : s k = none) (hf : f1 ≠ f2) :
    (CacheStore.hset n₁ k [(f1, v1)] s).1 = 1 ∧
    (CacheStore.hset n₂ k [(f1, v2), (f2, v3)]
        (CacheStore.hset n₁ k [(f1, v1)] s).2).1 = 1 ∧
    (CacheStore.hget n₃ k f1
        (CacheStore.hset n₂ k [(f1, v2), (f2, v3)]
          (CacheStore.hset n₁ k [(f1, v1)] s).2).2).1 = some v2 := by
  have h1 : CacheStore.hset n₁ k [(f1, v1)] s
      = (1, CacheStore.insert k
          { value := Value.Hash { fields := [(f1, v1)], encoding := HashEncoding.HashTable },
            expires_at := none, created_at := n₁, last_accessed := none } s) := by
    simp [CacheStore.hset, hk, freshHash, hsetLoop, hmInsert, hmContains,
      hmLookup, Entry.new]
  have hks : (CacheStore.hset n₁ k [(f1, v1)] s).2 k
      = some { value := Value.Hash { fields := [(f1, v1)], encoding := HashEncoding.HashTable },
               expires_at := none, created_at := n₁, last_accessed := none } := by
    rw [h1]
    exact CacheStore.insert_apply k _ s
  have h2 : CacheStore.hset n₂ k [(f1, v2), (f2, v3)]
        (CacheStore.hset n₁ k [(f1, v1)] s).2
      = (1, CacheStore.insert k
          { value := Value.Hash
              { fields := [(f1, v2), (f2, v3)], encoding := HashEncoding.HashTable },
            expires_at := none, created_at := n₁, last_accessed := none }
          (CacheStore.hset n₁ k [(f1, v1)] s).2) := by
    have hstep : ∀ s1 : CacheStore,
        s1 k = some { value := Value.Hash
                        { fields := [(f1, v1)], encoding := HashEncoding.HashTable },
                      expires_at := none, created_at := n₁, last_accessed := none } →
        CacheStore.hset n₂ k [(f1, v2), (f2, v3)] s1
          = (1, CacheStore.insert k
              { value := Value.Hash
                  { fields := [(f1, v2), (f2, v3)],
                    encoding := HashEncoding.HashTable },
                expires_at := none, created_at := n₁, last_accessed := none } s1) := by
      intro s1 hs1
      simp [CacheStore.hset, hs1, Entry.is_expired, hsetLoop, hmInsert,
        hmContains, hmLookup, hf]
    exact hstep _ hks
  have hks2 : (CacheStore.hset n₂ k [(f1, v2), (f2, v3)]
        (CacheStore.hset n₁ k [(f1, v1)] s).2).2 k
      = some { value := Value.Hash
                 { fields := [(f1, v2), (f2, v3)], encoding := HashEncoding.HashTable },
               expires_at := none, created_at := n₁, last_accessed := none } := by
    rw [h2]
    exact CacheStore.insert_apply k _ _
  refine ⟨by rw [h1], by rw [h2], ?_⟩
  simp [CacheStore.hget, hks2, Entry.is_expired, hmLookup]

/-- C9 witness: the statement at concrete fields and values. -/
theorem C9_hset_field_accounting_witness :
    (CacheStore.empty "k" = (none : Option Entry)) ∧
    ("f1" : String) ≠ "f2" ∧
    ((CacheStore.hset 0 "k" [("f1", "v1")] CacheStore.empty).1 = 1 ∧
     (CacheStore.hset 1 "k" [("f1", "v2"), ("f2", "v3")]
        (CacheStore.hset 0 "k" [("f1", "v1")] CacheStore.empty).2).1 = 1 ∧
     (CacheStore.hget 2 "k" "f1"
        (CacheStore.hset 1 "k" [("f1", "v2"), ("f2", "v3")]
          (CacheStore.hset 0 "k" [("f1", "v1")] CacheStore.empty).2).2).1
       = some "v2") :=
  ⟨rfl, by decide,
   C9_hset_field_accounting 0 1 2 "k" "f1" "f2" "v1" "v2" "v3" CacheStore.empty
     rfl (by decide)⟩

/-- C5: lazy expiration.  Whenever the entry stored under a key is
expired (`now` past its `expires_at`), every store operation that looks the
key up responds exactly as on the store with that entry erased — the expired
value is never returned — and the basic lookups leave the keyspace with no
entry under the key. -/
theorem C5_expired_entry_as_absent (now : Nat) (k : String) (s : CacheStore)
    (e : Entry) (hk : s k = some e) (hex : e.is_expired now = true) :
    respondsAsAbsent now k s := by
  have hr : CacheStore.remove k s k = none := CacheStore.remove_self k s
  have hget : CacheStore.get now k s
      = CacheStore.get now k (CacheStore.remove k s) := by
    simp [CacheStore.get, hk, hex, hr]
  unfold respondsAsAbsent
  refine ⟨by simp [CacheStore.get, hk, hex],
    by simp [CacheStore.get, hk, hex, CacheStore.remove],
    by simp [CacheStore.exists, hk, hex],
    by simp [CacheStore.exists, hk, hex, CacheStore.remove],
    by simp [CacheStore.ttl, hk, hex],
    by simp [CacheStore.ttl, hk, hex, CacheStore.remove],
    hget,
    by simp [CacheStore.exists, hk, hex, hr],
    by simp [CacheStore.ttl, hk, hex, hr],
    fun t => by simp [CacheStore.expire, hk, hex, hr],
    by simp [CacheStore.persist, hk, hex, hr],
    by simp [CacheStore.key_type, hget],
    fun vs => by simp [CacheStore.lpush, hk, hex, hr],
    fun vs => by simp [CacheStore.rpush, hk, hex, hr],
    fun c => by simp [CacheStore.lpop, hk, hex, hr],
    fun c => by simp [CacheStore.rpop, hk, hex, hr],
    by simp [CacheStore.llen, hk, hex, hr],
    fun a b => by simp [CacheStore.lrange, hk, hex, hr],
    fun ms => by simp [CacheStore.sadd, hk, hex, hr],
    fun ms => by simp [CacheStore.srem, hk, hex, hr],
    by simp [CacheStore.smembers, hk, hex, hr],
    by simp [CacheStore.scard, hk, hex, hr],
    fun m => by simp [CacheStore.s_ismember, hk, hex, hr],
    fun ps => by simp [CacheStore.hset, hk, hex, hr],
    fun f => by simp [CacheStore.hget, hk, hex, hr],
    fun fs => by simp [CacheStore.hdel, hk, hex, hr],
    fun ps => by simp [CacheStore.hmset, CacheStore.hset, hk, hex, hr],
    fun fs => by simp [CacheStore.hmget, hk, hex, hr],
    fun f => by simp [CacheStore.hexists, hk, hex, hr],
    by simp [CacheStore.hlen, hk, hex, hr],
    by simp [CacheStore.hkeys, hk, hex, hr],
    by simp [CacheStore.hvals, hk, hex, hr],
    by simp [CacheStore.hgetall, hk, hex, hr],
    fun ms => by simp [CacheStore.zadd, hk, hex, hr],
    fun ms => by simp [CacheStore.zrem, hk, hex, hr],
    fun a b o => by simp [CacheStore.zrange, hk, hex, hr],
    by simp [CacheStore.zcard, hk, hex, hr],
    fun m => by simp [CacheStore.zscore, hk, hex, hr]⟩

/-- C5 witness: the contract at the concrete expired entry (deadline 5,
queried at tick 10). -/
theorem C5_expired_entry_as_absent_witness :
    expiredStore "k" = some expiredEntry ∧
    expiredEntry.is_expired 10 = true ∧
    respondsAsAbsent 10 "k" expiredStore :=
  ⟨rfl, rfl, C5_expired_entry_as_absent 10 "k" expiredStore expiredEntry rfl rfl⟩

end DsCache
